import Mathlib

/-!
Shallow embedding of the polymarket copy-trading bot's surveillance and
copy-decision core (`src/data_listener.py`, `src/copy_trader.py`,
`src/config.py`), together with theorems settling the specification claims.

Python dict-shaped trade records become a structure of `Option` fields
(`dict.get` is `Option.getD` / pattern matching; `dict[k]` on a missing key
is a `KeyError`, modelled by `Except`).  Python floats are modelled as exact
rationals.  The `requests` fetch is modelled by an `Except` feed argument:
`.error` stands for a raised `requests.exceptions.RequestException`
(connection failure, timeout, or the non-2xx statuses surfaced by
`raise_for_status`).
-/

/-- Python trade record from the data feed: a dict whose fields may be absent. -/
structure TradeRec where
  timestamp : Option Int
  side : Option String
  price : Option ℚ
  size : Option ℚ
  asset : Option String
  conditionId : Option String
  slug : Option String
  outcome : Option String
  title : Option String
  deriving DecidableEq

/-- Empty record: the dict `{}`. -/
def TradeRec.empty : TradeRec :=
  ⟨none, none, none, none, none, none, none, none, none⟩

/-- Effective timestamp of a record: `trade.get("timestamp", 0)`
(data_listener.py line 38). -/
def tsOf (t : TradeRec) : Int :=
  t.timestamp.getD 0

/-- Transport-level feed failure: a `requests.exceptions.RequestException`
(connection error, timeout, or 4xx/5xx raised by `raise_for_status`). -/
inductive FeedErr where
  | requestException (msg : String)
  deriving DecidableEq

/-- Scan loop of `TradeListener._fetch_new_trades` (data_listener.py lines
36-44): iterate the DESC-ordered feed, append every trade whose
`trade.get("timestamp", 0)` strictly exceeds the mark, and `break` at the
first trade that does not. -/
def collectNew (mark : Int) : List TradeRec → List TradeRec
  | [] => []
  | t :: rest =>
    if mark < tsOf t then t :: collectNew mark rest else []

/-- Body of `TradeListener._fetch_new_trades` (data_listener.py lines 29-53):
on a successful fetch, collect the new trades and reverse them into
oldest-first order; on a `RequestException`, log and return the empty list. -/
def fetchNewTrades (mark : Int) (feed : Except FeedErr (List TradeRec)) :
    List TradeRec :=
  match feed with
  | .error _ => []
  | .ok trades => (collectNew mark trades).reverse

/-- Startup initialisation of the high-water mark
(`self.last_trade_timestamp = int(time.time())`, data_listener.py line 12). -/
def initMark (now : Int) : Int := now

/-- One cycle of `TradeListener.run_polling_loop` (data_listener.py lines
57-67) without the callback side effects: fetch the new trades, and if the
batch is non-empty set the mark to
`new_trades[-1].get("timestamp", self.last_trade_timestamp)`.
Returns the updated mark and the batch handed to the callback. -/
def pollStep (mark : Int) (feed : Except FeedErr (List TradeRec)) :
    Int × List TradeRec :=
  let newTrades := fetchNewTrades mark feed
  match newTrades.getLast? with
  | none => (mark, newTrades)
  | some t => (t.timestamp.getD mark, newTrades)

/-- Feed sortedness assumed by the scan: timestamps are non-increasing
(newest first). -/
def sortedDesc (l : List TradeRec) : Prop :=
  l.Pairwise (fun a b => tsOf b ≤ tsOf a)

instance : DecidablePred sortedDesc := fun l =>
  List.instDecidablePairwise l

/- ### Copy Engine (copy_trader.py) -/

/-- Python exception escaping a modelled function. -/
inductive PyErr where
  | keyError (key : String)
  | zeroDivisionError
  deriving DecidableEq

/-- Dict subscription `d["k"]`: raises `KeyError` when the key is absent. -/
def require (key : String) : Option α → Except PyErr α
  | none => .error (.keyError key)
  | some v => .ok v

/-- Configuration values consumed by `CopyTrader` (config.py lines 27-31). -/
structure Cfg where
  allocationPercent : ℚ
  maxTradeUSDC : ℚ
  minTradeUSDC : ℚ
  slippageTolerancePercent : ℚ
  minTradeSize : ℚ
  deriving DecidableEq

/-- The literal values in config.py: `ALLOCATION_PERCENT = 0.15`,
`MAX_TRADE_USDC = 4`, `MIN_TRADE_USDC = 0`, `SLIPPAGE_TOLERANCE_PERCENT = 0`,
`MIN_TRADE_SIZE = 5`. -/
def repoCfg : Cfg :=
  { allocationPercent := 15 / 100
    maxTradeUSDC := 4
    minTradeUSDC := 0
    slippageTolerancePercent := 0
    minTradeSize := 5 }

/-- Substring test `'4h' in s` (Python `in` on strings). -/
def containsFourH (s : String) : Bool :=
  2 ≤ (s.splitOn "4h").length

/-- Truthiness-guarded slug check of copy_trader.py line 47:
`original_trade.get('slug') and '4h' in original_trade.get('slug')`
(`None` and the empty string are falsy). -/
def slugIsFourHour : Option String → Bool
  | none => false
  | some s => s ≠ "" && containsFourH s

/-- Body of `CopyTrader._apply_filters` (copy_trader.py lines 29-56): reject
absent or zero `size`; reject when `size.getD 0 * price.getD 0` is below
`MIN_TRADE_USDC`; reject 4h-market slugs; otherwise accept.  All lookups go
through `dict.get`, so this function raises no exception. -/
def applyFilters (cfg : Cfg) (t : TradeRec) : Bool :=
  match t.size with
  | none => false
  | some s =>
    if s = 0 then false
    else
      let tradeAmountUsdc := (t.size.getD 0) * (t.price.getD 0)
      if tradeAmountUsdc < cfg.minTradeUSDC then false
      else if slugIsFourHour t.slug then false
      else true

/-- Side constant of an order handed to the CLOB client
(`py_clob_client.order_builder.constants.BUY / SELL`). -/
inductive OrderSide where
  | BUY
  | SELL
  deriving DecidableEq

/-- The `OrderArgs` the bot constructs (copy_trader.py lines 116-121). -/
structure OrderArgs where
  tokenId : String
  price : ℚ
  size : ℚ
  side : OrderSide
  deriving DecidableEq

/-- Reason a trade is dropped without an order: either a filter in
`_apply_filters` rejected it (lines 62-63) or the clamped copy amount fell
below `MIN_TRADE_USDC` (lines 82-84). -/
inductive SkipReason where
  | filtered
  | tooSmallAfterAllocation
  deriving DecidableEq

/-- Outcome of the evaluation phase of `execute_copy_trade` (copy_trader.py
lines 62-121): skip, or an `OrderArgs` ready for submission. -/
inductive Decision where
  | skip (r : SkipReason)
  | submit (args : OrderArgs)
  deriving DecidableEq

/-- Python `round(x, 4)`: round half to even at four decimal places. -/
def roundHalfEven (q : ℚ) : Int :=
  let n := ⌊q⌋
  let f := q - n
  if f < 1 / 2 then n
  else if 1 / 2 < f then n + 1
  else if n % 2 = 0 then n else n + 1

/-- Rounding used for the limit price (copy_trader.py lines 105 and 111). -/
def round4 (q : ℚ) : ℚ :=
  (roundHalfEven (q * 10000) : ℚ) / 10000

/-- Python float division: raises `ZeroDivisionError` on a zero divisor. -/
def pyDiv (a b : ℚ) : Except PyErr ℚ :=
  if b = 0 then .error .zeroDivisionError else .ok (a / b)

/-- Evaluation phase of `CopyTrader.execute_copy_trade` (copy_trader.py lines
62-121): filters, required-key lookups (`price`, `side`, `asset`,
`conditionId` — the latter evaluated eagerly as the default argument of
`original_trade.get("title", original_trade["conditionId"])` on line 71),
allocation sizing with the `MAX_TRADE_USDC` clamp, the post-clamp
`MIN_TRADE_USDC` skip, the `MIN_TRADE_SIZE` share floor, side mirroring and
slippage-adjusted limit pricing.  None of this code is inside the `try`
block, so any `PyErr` here escapes `execute_copy_trade`. -/
def evaluateTrade (cfg : Cfg) (t : TradeRec) : Except PyErr Decision :=
  if applyFilters cfg t = false then .ok (.skip .filtered)
  else
    match require "price" t.price with
    | .error e => .error e
    | .ok originalPrice =>
      match require "side" t.side with
      | .error e => .error e
      | .ok originalSide =>
        let originalSize := t.size.getD 0
        let originalAmountUsdc := originalPrice * originalSize
        match require "asset" t.asset with
        | .error e => .error e
        | .ok tokenId =>
          match require "conditionId" t.conditionId with
          | .error e => .error e
          | .ok _ =>
            let copiedAmountUsdc :=
              min (originalAmountUsdc * cfg.allocationPercent) cfg.maxTradeUSDC
            if copiedAmountUsdc < cfg.minTradeUSDC then
              .ok (.skip .tooSmallAfterAllocation)
            else
              match pyDiv copiedAmountUsdc originalPrice with
              | .error e => .error e
              | .ok q =>
                let copiedSizeTokens := max q cfg.minTradeSize
                let copySide :=
                  if originalSide = "BUY" then OrderSide.BUY else OrderSide.SELL
                let orderPrice :=
                  match copySide with
                  | .BUY =>
                    round4 (originalPrice * (1 + cfg.slippageTolerancePercent))
                  | .SELL =>
                    round4 (originalPrice * (1 - cfg.slippageTolerancePercent))
                .ok (.submit ⟨tokenId, orderPrice, copiedSizeTokens, copySide⟩)

/-- Opaque signed order returned by `client.create_order`. -/
structure SignedOrder where
  args : OrderArgs
  deriving DecidableEq

/-- Response dict of `client.post_order`, already read through `.get` with
the defaults used on lines 130-137. -/
structure PostResp where
  success : Bool
  status : String
  orderID : String
  errorMsg : String
  deriving DecidableEq

/-- The opaque order gateway (`ClobClient`): each call either returns or
raises, modelled by `Except` with the exception message. -/
structure Gateway where
  createOrder : OrderArgs → Except String SignedOrder
  postOrder : SignedOrder → Except String PostResp

/-- Result of the submission `try` block (copy_trader.py lines 123-140):
success branch, explicit gateway failure branch, or a caught exception
logged as "A critical error occurred during order submission". -/
inductive SubmitResult where
  | orderPlaced (orderID status : String)
  | orderRejected (errorMsg : String)
  | submitException (msg : String)
  deriving DecidableEq

/-- Overall outcome of a call to `execute_copy_trade` that returned normally. -/
inductive ExecOutcome where
  | skipped (r : SkipReason)
  | submitted (args : OrderArgs) (res : SubmitResult)
  deriving DecidableEq

/-- Submission block of `execute_copy_trade` (copy_trader.py lines 123-140):
`create_order` then `post_order` inside `try/except Exception`, so a raise
from either call is converted into a logged outcome, never re-raised. -/
def submitOrder (gw : Gateway) (args : OrderArgs) : SubmitResult :=
  match gw.createOrder args with
  | .error msg => .submitException msg
  | .ok signed =>
    match gw.postOrder signed with
    | .error msg => .submitException msg
    | .ok resp =>
      if resp.success then .orderPlaced resp.orderID resp.status
      else .orderRejected resp.errorMsg

/-- The whole of `CopyTrader.execute_copy_trade` (copy_trader.py lines
58-140): evaluation (whose exceptions escape) followed by the guarded
submission block.  An `.error` result models an exception propagating out of
`execute_copy_trade` into the polling loop. -/
def execute_copy_trade (cfg : Cfg) (gw : Gateway) (t : TradeRec) :
    Except PyErr ExecOutcome :=
  match evaluateTrade cfg t with
  | .error e => .error e
  | .ok (.skip r) => .ok (.skipped r)
  | .ok (.submit args) => .ok (.submitted args (submitOrder gw args))

/-- The per-trade callback loop of `run_polling_loop` (data_listener.py lines
61-62): `for trade in new_trades: copy_trader_callback(trade)`.  The loop has
no exception handler, so an exception from one callback aborts the loop and
the remaining trades are never evaluated. -/
def processBatch (cfg : Cfg) (gw : Gateway) :
    List TradeRec → Except PyErr (List ExecOutcome)
  | [] => .ok []
  | t :: rest =>
    match execute_copy_trade cfg gw t with
    | .error e => .error e
    | .ok out =>
      match processBatch cfg gw rest with
      | .error e => .error e
      | .ok outs => .ok (out :: outs)

/- ### Concrete inputs used in examples, witnesses and counterexamples -/

/-- Record with only a timestamp, as in the spec's ordering example. -/
def tEx (n : Int) : TradeRec :=
  { TradeRec.empty with timestamp := some n }

/-- Gateway whose two calls both return normally, with a success response. -/
def gwOk : Gateway :=
  ⟨fun a => .ok ⟨a⟩, fun _ => .ok ⟨true, "live", "oid", ""⟩⟩

/-- Gateway whose `post_order` raises (transport failure during submission). -/
def gwBoom : Gateway :=
  ⟨fun a => .ok ⟨a⟩, fun _ => .error "boom"⟩

/-- Record with a unit size and no price field. -/
def tMissingPrice : TradeRec :=
  { TradeRec.empty with size := some 1 }

/-- Second record with no price field (size 2). -/
def tMissingPriceB : TradeRec :=
  { TradeRec.empty with size := some 2 }

/-- Record with a zero fill size. -/
def tZeroSize : TradeRec :=
  { TradeRec.empty with size := some 0, price := some 1 }

/-- The spec's sizing example: price 0.20, size 100. -/
def tSpecSizing : TradeRec :=
  { TradeRec.empty with
    price := some (1 / 5)
    size := some 100
    side := some "BUY"
    asset := some "tok"
    conditionId := some "cid" }

/-- A trade whose copy order gets floored to `MIN_TRADE_SIZE` shares and
thereby exceeds the `MAX_TRADE_USDC` cap: price 0.90, size 100. -/
def tOverCap : TradeRec :=
  { TradeRec.empty with
    price := some (9 / 10)
    size := some 100
    side := some "SELL"
    asset := some "tok"
    conditionId := some "cid" }

/-- A plain well-formed trade: price 2, size 50, SELL. -/
def tPlain : TradeRec :=
  { TradeRec.empty with
    price := some 2
    size := some 50
    side := some "SELL"
    asset := some "tok"
    conditionId := some "cid" }

/- ### Basic scan lemmas -/

theorem collectNew_eq_takeWhile (mark : Int) (l : List TradeRec) :
    collectNew mark l = l.takeWhile (fun t => decide (mark < tsOf t)) := by
  induction l with
  | nil => rfl
  | cons t rest ih =>
    by_cases h : mark < tsOf t
    · simp [collectNew, h, List.takeWhile_cons, ih]
    · simp [collectNew, h, List.takeWhile_cons]

theorem mem_collectNew {mark : Int} {l : List TradeRec} {t : TradeRec}
    (h : t ∈ collectNew mark l) : mark < tsOf t := by
  induction l with
  | nil => simp [collectNew] at h
  | cons a rest ih =>
    by_cases ha : mark < tsOf a
    · simp only [collectNew, if_pos ha, List.mem_cons] at h
      rcases h with rfl | h
      · exact ha
      · exact ih h
    · simp [collectNew, if_neg ha] at h

theorem collectNew_eq_filter_of_sorted {mark : Int} {l : List TradeRec}
    (h : sortedDesc l) :
    collectNew mark l = l.filter (fun t => decide (mark < tsOf t)) := by
  induction l with
  | nil => rfl
  | cons a rest ih =>
    rcases List.pairwise_cons.mp h with ⟨hhead, htail⟩
    by_cases ha : mark < tsOf a
    · simp [collectNew, if_pos ha, List.filter_cons, ha, ih htail]
    · have hnil : rest.filter (fun t => decide (mark < tsOf t)) = [] := by
        rw [List.filter_eq_nil_iff]
        intro b hb
        simp only [decide_eq_true_eq]
        intro hlt
        exact ha (lt_of_lt_of_le hlt (hhead b hb))
      simp [collectNew, if_neg ha, List.filter_cons, ha, hnil]

theorem collectNew_sorted {mark : Int} {l : List TradeRec}
    (h : sortedDesc l) :
    (collectNew mark l).Pairwise (fun a b => tsOf b ≤ tsOf a) := by
  rw [collectNew_eq_takeWhile]
  exact h.sublist (List.takeWhile_sublist _)

theorem mem_fetchNewTrades {mark : Int} {feed : Except FeedErr (List TradeRec)}
    {t : TradeRec} (h : t ∈ fetchNewTrades mark feed) : mark < tsOf t := by
  cases feed with
  | error e => simp [fetchNewTrades] at h
  | ok l =>
    rw [fetchNewTrades, List.mem_reverse] at h
    exact mem_collectNew h

theorem pollStep_snd (mark : Int) (feed : Except FeedErr (List TradeRec)) :
    (pollStep mark feed).2 = fetchNewTrades mark feed := by
  unfold pollStep
  cases h : (fetchNewTrades mark feed).getLast? <;> simp [h]

theorem pollStep_fst_none {mark : Int} {feed : Except FeedErr (List TradeRec)}
    (h : (fetchNewTrades mark feed).getLast? = none) :
    (pollStep mark feed).1 = mark := by
  simp [pollStep, h]

theorem pollStep_fst_some {mark : Int} {feed : Except FeedErr (List TradeRec)}
    {t : TradeRec} (h : (fetchNewTrades mark feed).getLast? = some t) :
    (pollStep mark feed).1 = t.timestamp.getD mark := by
  simp [pollStep, h]

/-- C1.  With a DESC-sorted feed, `poll` returns exactly the trades whose
timestamp strictly exceeds the mark, in ascending timestamp order; the scan
never looks past the first trade at or below the mark (the result does not
depend on anything after it); and on the spec's concrete feed
[5,4,3,2,1] with mark 2 it returns the trades stamped 3, 4, 5. -/
theorem watcher_poll_ordering :
    (∀ (mark : Int) (l : List TradeRec), sortedDesc l →
      fetchNewTrades mark (.ok l) =
        (l.filter (fun t => decide (mark < tsOf t))).reverse) ∧
    (∀ (mark : Int) (l : List TradeRec), sortedDesc l →
      (fetchNewTrades mark (.ok l)).Pairwise (fun a b => tsOf a ≤ tsOf b)) ∧
    (∀ (mark : Int) (b : TradeRec) (l₁ l₂ l₂' : List TradeRec),
      tsOf b ≤ mark →
      collectNew mark (l₁ ++ b :: l₂) = collectNew mark (l₁ ++ b :: l₂')) ∧
    fetchNewTrades 2 (.ok [tEx 5, tEx 4, tEx 3, tEx 2, tEx 1]) =
      [tEx 3, tEx 4, tEx 5] := by
  refine ⟨?_, ?_, ?_, by decide⟩
  · intro mark l h
    rw [fetchNewTrades, collectNew_eq_filter_of_sorted h]
  · intro mark l h
    rw [fetchNewTrades, List.pairwise_reverse]
    exact collectNew_sorted h
  · intro mark b l₁ l₂ l₂' hb
    induction l₁ with
    | nil =>
      have : ¬ mark < tsOf b := not_lt.mpr hb
      simp [collectNew, this]
    | cons a rest ih =>
      by_cases ha : mark < tsOf a
      · simp only [List.cons_append, collectNew, if_pos ha]
        exact congrArg (List.cons a) ih
      · simp only [List.cons_append, collectNew, if_neg ha]

theorem watcher_poll_ordering_witness :
    fetchNewTrades 2 (.ok [tEx 9, tEx 7]) =
      ([tEx 9, tEx 7].filter (fun t => decide (2 < tsOf t))).reverse :=
  watcher_poll_ordering.1 2 [tEx 9, tEx 7] (by decide)

/-- C4.  A transport failure (connection error, timeout, or the non-2xx
statuses raised by `raise_for_status`) makes the cycle yield zero trades, is
absorbed inside `_fetch_new_trades` (the polling step returns normally), and
leaves the high-water mark unchanged. -/
theorem watcher_feed_failure (mark : Int) (e : FeedErr) :
    fetchNewTrades mark (.error e) = [] ∧
    pollStep mark (.error e) = (mark, []) :=
  ⟨rfl, rfl⟩

/-- C5.  The high-water mark is initialised to the current time at startup
and is non-decreasing across every cycle; a cycle yielding no trades leaves
it unchanged, and a cycle yielding trades (from a non-negative mark, as
guaranteed by initialisation) sets it to the timestamp of the last —
chronologically most recent — trade returned, which strictly exceeds the
previous mark. -/
theorem watcher_mark_monotone :
    (∀ now : Int, initMark now = now) ∧
    (∀ (mark : Int) (feed : Except FeedErr (List TradeRec)),
      mark ≤ (pollStep mark feed).1) ∧
    (∀ (mark : Int) (feed : Except FeedErr (List TradeRec)),
      (pollStep mark feed).2 = [] → (pollStep mark feed).1 = mark) ∧
    (∀ (mark : Int) (feed : Except FeedErr (List TradeRec)) (t : TradeRec),
      0 ≤ mark → ((pollStep mark feed).2).getLast? = some t →
      ∃ ts : Int, t.timestamp = some ts ∧
        (pollStep mark feed).1 = ts ∧ mark < ts) := by
  refine ⟨fun _ => rfl, ?_, ?_, ?_⟩
  · intro mark feed
    cases h : (fetchNewTrades mark feed).getLast? with
    | none => rw [pollStep_fst_none h]
    | some t =>
      rw [pollStep_fst_some h]
      have ht : mark < tsOf t :=
        mem_fetchNewTrades (List.mem_of_mem_getLast? h)
      cases hts : t.timestamp with
      | none => simp
      | some ts =>
        rw [tsOf, hts] at ht
        simpa using le_of_lt ht
  · intro mark feed h2
    rw [pollStep_snd] at h2
    exact pollStep_fst_none (by rw [h2]; rfl)
  · intro mark feed t h0 hlast
    rw [pollStep_snd] at hlast
    have ht : mark < tsOf t :=
      mem_fetchNewTrades (List.mem_of_mem_getLast? hlast)
    cases hts : t.timestamp with
    | none =>
      exfalso
      rw [tsOf, hts] at ht
      simp at ht
      omega
    | some ts =>
      refine ⟨ts, rfl, ?_, ?_⟩
      · rw [pollStep_fst_some hlast, hts]
        rfl
      · rw [tsOf, hts] at ht
        exact ht

theorem watcher_mark_monotone_witness :
    ∃ ts : Int, (tEx 12).timestamp = some ts ∧
      (pollStep 10 (.ok [tEx 12])).1 = ts ∧ 10 < ts :=
  watcher_mark_monotone.2.2.2 10 (.ok [tEx 12]) (tEx 12)
    (by decide) (by decide)

/-- C6.  From any non-negative mark (every reachable mark, since the mark is
initialised to the positive current time and never decreases), a poll cycle
followed by a second poll over the unchanged feed yields no trades the
second time: no trade is ever delivered twice. -/
theorem watcher_repoll_idempotent (mark : Int) (trades : List TradeRec)
    (h0 : 0 ≤ mark) :
    (pollStep (pollStep mark (.ok trades)).1 (.ok trades)).2 = [] := by
  cases trades with
  | nil => rfl
  | cons t rest =>
    by_cases ht : mark < tsOf t
    · have hcol : collectNew mark (t :: rest) = t :: collectNew mark rest := by
        rw [collectNew, if_pos ht]
      have hlast : (fetchNewTrades mark (.ok (t :: rest))).getLast? = some t := by
        rw [fetchNewTrades, hcol, List.getLast?_reverse]
        rfl
      cases hts : t.timestamp with
      | none =>
        exfalso
        rw [tsOf, hts] at ht
        simp at ht
        omega
      | some ts =>
        have hfst : (pollStep mark (.ok (t :: rest))).1 = ts := by
          rw [pollStep_fst_some hlast, hts]
          rfl
        have htt : tsOf t = ts := by rw [tsOf, hts]; rfl
        rw [hfst, pollStep_snd]
        show (collectNew ts (t :: rest)).reverse = []
        rw [collectNew, if_neg (by rw [htt]; exact lt_irrefl ts)]
        rfl
    · have hnil : fetchNewTrades mark (.ok (t :: rest)) = [] := by
        show (collectNew mark (t :: rest)).reverse = []
        rw [collectNew, if_neg ht]
        rfl
      have hfst : (pollStep mark (.ok (t :: rest))).1 = mark :=
        pollStep_fst_none (by rw [hnil]; rfl)
      rw [hfst, pollStep_snd, hnil]

theorem watcher_repoll_idempotent_witness :
    (pollStep (pollStep 3 (.ok [tEx 8, tEx 5])).1 (.ok [tEx 8, tEx 5])).2
      = [] :=
  watcher_repoll_idempotent 3 [tEx 8, tEx 5] (by decide)

/-- C10.  A feed record with no `timestamp` field is read as timestamp 0
(`trade.get("timestamp", 0)`), and from any non-negative mark — every
reachable mark, given initialisation to the positive current time and
monotonicity — such a record is never yielded by a poll: it is silently
dropped, not an error. -/
theorem watcher_drops_missing_timestamp :
    (∀ t : TradeRec, tsOf t = t.timestamp.getD 0) ∧
    (∀ (mark : Int) (feed : Except FeedErr (List TradeRec)) (t : TradeRec),
      0 ≤ mark → t.timestamp = none → t ∉ fetchNewTrades mark feed) := by
  refine ⟨fun _ => rfl, ?_⟩
  intro mark feed t h0 hts hmem
  have := mem_fetchNewTrades hmem
  rw [tsOf, hts] at this
  simp at this
  omega

theorem watcher_drops_missing_timestamp_witness :
    TradeRec.empty ∉ fetchNewTrades 10 (.ok [TradeRec.empty, tEx 20]) :=
  watcher_drops_missing_timestamp.2 10 (.ok [TradeRec.empty, tEx 20])
    TradeRec.empty (by decide) rfl

/- ### Copy Engine lemmas -/

theorem execute_submitted_inv {cfg : Cfg} {gw : Gateway} {t : TradeRec}
    {args : OrderArgs} {res : SubmitResult}
    (h : execute_copy_trade cfg gw t = .ok (.submitted args res)) :
    evaluateTrade cfg t = .ok (.submit args) ∧ res = submitOrder gw args := by
  unfold execute_copy_trade at h
  split at h
  · simp at h
  · simp at h
  · rename_i args' heq
    simp only [Except.ok.injEq, ExecOutcome.submitted.injEq] at h
    obtain ⟨h1, h2⟩ := h
    subst h1
    exact ⟨heq, h2.symm⟩

theorem execute_error_inv {cfg : Cfg} {gw : Gateway} {t : TradeRec}
    {e : PyErr} (h : execute_copy_trade cfg gw t = .error e) :
    evaluateTrade cfg t = .error e := by
  unfold execute_copy_trade at h
  split at h <;> simp_all

theorem execute_of_skip {cfg : Cfg} {gw : Gateway} {t : TradeRec}
    {r : SkipReason} (h : evaluateTrade cfg t = .ok (.skip r)) :
    execute_copy_trade cfg gw t = .ok (.skipped r) := by
  unfold execute_copy_trade
  rw [h]

theorem execute_of_submit {cfg : Cfg} {gw : Gateway} {t : TradeRec}
    {args : OrderArgs} (h : evaluateTrade cfg t = .ok (.submit args)) :
    execute_copy_trade cfg gw t =
      .ok (.submitted args (submitOrder gw args)) := by
  unfold execute_copy_trade
  rw [h]

/-- Concrete evaluation: `tPlain` is copied as 5 SELL shares at limit 2. -/
theorem evaluate_tPlain :
    evaluateTrade repoCfg tPlain = .ok (.submit ⟨"tok", 2, 5, .SELL⟩) := by
  simp only [evaluateTrade, applyFilters, tPlain, repoCfg, TradeRec.empty,
    slugIsFourHour, require, pyDiv, round4, roundHalfEven, String.reduceEq]
  norm_num

theorem execute_tPlain :
    execute_copy_trade repoCfg gwOk tPlain =
      .ok (.submitted ⟨"tok", 2, 5, .SELL⟩ (.orderPlaced "oid" "live")) := by
  rw [execute_of_submit evaluate_tPlain]
  rfl

theorem filters_tPlain : applyFilters repoCfg tPlain = true := by
  simp only [applyFilters, tPlain, repoCfg, TradeRec.empty, slugIsFourHour]
  norm_num

theorem notSmall_tPlain :
    ¬ min ((2 : ℚ) * 50 * repoCfg.allocationPercent) repoCfg.maxTradeUSDC <
      repoCfg.minTradeUSDC := by
  simp only [repoCfg]
  norm_num

theorem evaluate_ok_singleton_tPlain :
    ∀ t ∈ [tPlain], ∃ d, evaluateTrade repoCfg t = .ok d := by
  intro t ht
  rw [List.mem_singleton] at ht
  subst ht
  exact ⟨_, evaluate_tPlain⟩

/-- C2 counterexample.  The claim that no exception raised during trade
evaluation propagates out of `execute_copy_trade` is false: a record whose
filter-passing size is 1 but whose `price` field is absent passes
`_apply_filters` (its notional `1 * 0 = 0` is not below the configured
minimum of 0), and then `original_trade["price"]` raises a `KeyError` that
escapes `execute_copy_trade` — the evaluation code is outside the `try`
block. -/
theorem engine_eval_exception_escapes :
    execute_copy_trade repoCfg gwOk tMissingPrice =
      .error (.keyError "price") := by
  have hev : evaluateTrade repoCfg tMissingPrice = .error (.keyError "price") := by
    simp only [evaluateTrade, applyFilters, tMissingPrice, repoCfg,
      TradeRec.empty, slugIsFourHour, require]
    norm_num
  unfold execute_copy_trade
  rw [hev]

/-- C2 (amended).  Exceptions during order construction or submission are
caught at the call site and never escape `execute_copy_trade`: any exception
that does escape is independent of the gateway and comes from the evaluation
phase (a `KeyError`/`ZeroDivisionError` raised before the `try` block).
Hence a gateway exception while submitting one trade never prevents
evaluation of the remaining trades in the batch: whenever every trade in the
batch evaluates without an evaluation-phase exception, the whole batch is
processed, whatever the gateway does. -/
theorem engine_failure_isolation :
    (∀ (cfg : Cfg) (gw gw' : Gateway) (t : TradeRec) (e : PyErr),
      execute_copy_trade cfg gw t = .error e →
      execute_copy_trade cfg gw' t = .error e) ∧
    (∀ (cfg : Cfg) (gw : Gateway) (t : TradeRec) (e : PyErr),
      execute_copy_trade cfg gw t = .error e →
      evaluateTrade cfg t = .error e) ∧
    (∀ (cfg : Cfg) (gw : Gateway) (ts : List TradeRec),
      (∀ t ∈ ts, ∃ d, evaluateTrade cfg t = .ok d) →
      ∃ outs, processBatch cfg gw ts = .ok outs ∧
        outs.length = ts.length) := by
  refine ⟨?_, fun _ _ _ _ h => execute_error_inv h, ?_⟩
  · intro cfg gw gw' t e h
    have hev := execute_error_inv h
    unfold execute_copy_trade
    rw [hev]
  · intro cfg gw ts hok
    induction ts with
    | nil => exact ⟨[], rfl, rfl⟩
    | cons t rest ih =>
      obtain ⟨d, hd⟩ := hok t (List.mem_cons_self t rest)
      obtain ⟨outs, houts, hlen⟩ :=
        ih (fun u hu => hok u (List.mem_cons_of_mem t hu))
      cases d with
      | skip r =>
        refine ⟨.skipped r :: outs, ?_, by simp [hlen]⟩
        unfold processBatch
        rw [execute_of_skip hd, houts]
      | submit args =>
        refine ⟨.submitted args (submitOrder gw args) :: outs, ?_, by simp [hlen]⟩
        unfold processBatch
        rw [execute_of_submit hd, houts]

theorem engine_failure_isolation_witness :
    ∃ outs, processBatch repoCfg gwBoom [tPlain] = .ok outs ∧
      outs.length = [tPlain].length :=
  engine_failure_isolation.2.2 repoCfg gwBoom [tPlain] evaluate_ok_singleton_tPlain

/-- C3 counterexample.  A record whose `price` field is absent is not always
treated as ineligible by the filter: with the repository configuration
(`MIN_TRADE_USDC = 0`) a price-less record of size 2 passes `_apply_filters`
(notional `2 * 0 = 0` is not `< 0`) and then raises a `KeyError` at
`original_trade["price"]` instead of being skipped. -/
theorem engine_missing_price_raises :
    execute_copy_trade repoCfg gwOk tMissingPriceB =
      .error (.keyError "price") := by
  have hev : evaluateTrade repoCfg tMissingPriceB =
      .error (.keyError "price") := by
    simp only [evaluateTrade, applyFilters, tMissingPriceB, repoCfg,
      TradeRec.empty, slugIsFourHour, require]
    norm_num
  unfold execute_copy_trade
  rw [hev]

/-- C3 (amended).  A record whose `size` is absent or exactly zero is always
skipped by the filter, with no order built and no exception, under any
configuration and gateway.  A record whose `price` is absent is likewise
skipped — but only when the configured minimum trade value is positive; with
the repository's `MIN_TRADE_USDC = 0` it instead escapes as a `KeyError`
(see the counterexample). -/
theorem engine_malformed_skipped :
    (∀ (cfg : Cfg) (gw : Gateway) (t : TradeRec),
      t.size = none ∨ t.size = some 0 →
      execute_copy_trade cfg gw t = .ok (.skipped .filtered)) ∧
    (∀ (cfg : Cfg) (gw : Gateway) (t : TradeRec),
      0 < cfg.minTradeUSDC → t.price = none →
      execute_copy_trade cfg gw t = .ok (.skipped .filtered)) := by
  constructor
  · intro cfg gw t hsz
    have hfil : applyFilters cfg t = false := by
      rcases hsz with h | h <;> simp [applyFilters, h]
    have hev : evaluateTrade cfg t = .ok (.skip .filtered) := by
      unfold evaluateTrade
      rw [hfil]
      rfl
    exact execute_of_skip hev
  · intro cfg gw t hmin hp
    have hfil : applyFilters cfg t = false := by
      cases hsz : t.size with
      | none => simp [applyFilters, hsz]
      | some s => simp [applyFilters, hsz, hp, hmin]
    have hev : evaluateTrade cfg t = .ok (.skip .filtered) := by
      unfold evaluateTrade
      rw [hfil]
      rfl
    exact execute_of_skip hev

theorem engine_malformed_skipped_witness :
    execute_copy_trade repoCfg gwOk tZeroSize = .ok (.skipped .filtered) :=
  engine_malformed_skipped.1 repoCfg gwOk tZeroSize (Or.inr rfl)

theorem evaluateTrade_submit_side {cfg : Cfg} {t : TradeRec} {args : OrderArgs}
    (h : evaluateTrade cfg t = .ok (.submit args)) {sd : String}
    (hsd : t.side = some sd) :
    args.side = if sd = "BUY" then OrderSide.BUY else OrderSide.SELL := by
  unfold evaluateTrade at h
  rw [hsd] at h
  simp only [require] at h
  split at h
  · simp at h
  · split at h
    · simp at h
    · split at h
      · simp at h
      · split at h
        · simp at h
        · split at h
          · simp at h
          · split at h
            · simp at h
            · simp only [Except.ok.injEq, Decision.submit.injEq] at h
              subst h
              rfl

/-- C9.  Whenever `execute_copy_trade` submits an order, the order's side
mirrors the original trade's side exactly: a BUY original yields a BUY copy
and a SELL original yields a SELL copy — never the inverse. -/
theorem engine_side_mirroring :
    ∀ (cfg : Cfg) (gw : Gateway) (t : TradeRec) (args : OrderArgs)
      (res : SubmitResult),
      execute_copy_trade cfg gw t = .ok (.submitted args res) →
      (t.side = some "BUY" → args.side = .BUY) ∧
      (t.side = some "SELL" → args.side = .SELL) := by
  intro cfg gw t args res h
  obtain ⟨hev, -⟩ := execute_submitted_inv h
  refine ⟨fun hb => ?_, fun hs => ?_⟩
  · simpa using evaluateTrade_submit_side hev hb
  · simpa using evaluateTrade_submit_side hev hs

theorem engine_side_mirroring_witness :
    (⟨"tok", 2, 5, .SELL⟩ : OrderArgs).side = .SELL :=
  (engine_side_mirroring repoCfg gwOk tPlain ⟨"tok", 2, 5, .SELL⟩
    (.orderPlaced "oid" "live") execute_tPlain).2 rfl

/-- C7.  For an eligible trade (all filters pass, positive price, required
fields present) the copy sizing is deterministic: the copied USDC amount is
`min(price*size*allocation, maxTradeUSDC)`; if that clamped amount is below
the configured minimum the trade is skipped as too small after allocation
(the check runs after clamping); otherwise an order is submitted whose share
size is `max(clampedAmount / price, minShareFloor)`.  On the spec's concrete
instance (allocation 0.15, max 4, floor 5, price 0.20, size 100) the result
is 15 shares. -/
theorem engine_sizing_deterministic :
    (∀ (cfg : Cfg) (gw : Gateway) (t : TradeRec) (p s : ℚ),
      t.price = some p → 0 < p → t.size = some s →
      t.side.isSome = true → t.asset.isSome = true →
      t.conditionId.isSome = true → applyFilters cfg t = true →
      (min (p * s * cfg.allocationPercent) cfg.maxTradeUSDC <
          cfg.minTradeUSDC →
        execute_copy_trade cfg gw t =
          .ok (.skipped .tooSmallAfterAllocation)) ∧
      (¬ min (p * s * cfg.allocationPercent) cfg.maxTradeUSDC <
          cfg.minTradeUSDC →
        ∃ args res,
          execute_copy_trade cfg gw t = .ok (.submitted args res) ∧
          args.size =
            max (min (p * s * cfg.allocationPercent) cfg.maxTradeUSDC / p)
              cfg.minTradeSize)) ∧
    evaluateTrade repoCfg tSpecSizing =
      .ok (.submit ⟨"tok", 1 / 5, 15, .BUY⟩) := by
  constructor
  · intro cfg gw t p s hp hp0 hs hside hasset hcond hfil
    obtain ⟨sd, hsd⟩ := Option.isSome_iff_exists.mp hside
    obtain ⟨tok, htok⟩ := Option.isSome_iff_exists.mp hasset
    obtain ⟨cid, hcid⟩ := Option.isSome_iff_exists.mp hcond
    constructor
    · intro hlt
      have hev : evaluateTrade cfg t =
          .ok (.skip .tooSmallAfterAllocation) := by
        simp [evaluateTrade, hfil, hp, hsd, htok, hcid, require, hs, hlt]
      exact execute_of_skip hev
    · intro hge
      by_cases hbuy : sd = "BUY"
      · have hev : evaluateTrade cfg t = .ok (.submit
            ⟨tok, round4 (p * (1 + cfg.slippageTolerancePercent)),
             max (min (p * s * cfg.allocationPercent) cfg.maxTradeUSDC / p)
               cfg.minTradeSize,
             .BUY⟩) := by
          simp [evaluateTrade, hfil, hp, hsd, htok, hcid, require, hs, hge,
            pyDiv, hp0.ne', hbuy]
        exact ⟨_, _, execute_of_submit hev, rfl⟩
      · have hev : evaluateTrade cfg t = .ok (.submit
            ⟨tok, round4 (p * (1 - cfg.slippageTolerancePercent)),
             max (min (p * s * cfg.allocationPercent) cfg.maxTradeUSDC / p)
               cfg.minTradeSize,
             .SELL⟩) := by
          simp [evaluateTrade, hfil, hp, hsd, htok, hcid, require, hs, hge,
            pyDiv, hp0.ne', hbuy]
        exact ⟨_, _, execute_of_submit hev, rfl⟩
  · simp only [evaluateTrade, applyFilters, tSpecSizing, repoCfg,
      TradeRec.empty, slugIsFourHour, require, pyDiv, round4, roundHalfEven,
      String.reduceEq]
    norm_num

theorem engine_sizing_deterministic_witness :
    ∃ args res,
      execute_copy_trade repoCfg gwOk tPlain = .ok (.submitted args res) ∧
      args.size =
        max (min ((2 : ℚ) * 50 * repoCfg.allocationPercent)
            repoCfg.maxTradeUSDC / 2) repoCfg.minTradeSize :=
  (engine_sizing_deterministic.1 repoCfg gwOk tPlain 2 50 rfl (by decide)
    rfl rfl rfl rfl filters_tPlain).2 notSmall_tPlain

/-- C8.  The `MIN_TRADE_SIZE` share floor is applied unconditionally after
the USDC clamp, so an eligible trade exists (price 0.90, size 100 under the
repository configuration) whose submitted copy order has notional value
`limitPrice * shares = 0.9 * 5 = 4.5`, strictly above the `MAX_TRADE_USDC`
cap of 4; no later check prevents the submission. -/
theorem engine_floor_exceeds_cap :
    ∃ (t : TradeRec) (args : OrderArgs),
      evaluateTrade repoCfg t = .ok (.submit args) ∧
      (∀ gw : Gateway, execute_copy_trade repoCfg gw t =
        .ok (.submitted args (submitOrder gw args))) ∧
      args.size = repoCfg.minTradeSize ∧
      args.price * args.size > repoCfg.maxTradeUSDC := by
  have hev : evaluateTrade repoCfg tOverCap =
      .ok (.submit ⟨"tok", 9 / 10, 5, .SELL⟩) := by
    simp only [evaluateTrade, applyFilters, tOverCap, repoCfg,
      TradeRec.empty, slugIsFourHour, require, pyDiv, round4, roundHalfEven,
      String.reduceEq]
    norm_num
  refine ⟨tOverCap, ⟨"tok", 9 / 10, 5, .SELL⟩, hev,
    fun gw => execute_of_submit hev, rfl, ?_⟩
  show (9 : ℚ) / 10 * 5 > repoCfg.maxTradeUSDC
  norm_num [repoCfg]
